import Mathlib

/-! imgcat: navigation state machine and half-block rasterizer

A shallow embedding of `main.go`.  The bubbletea runtime, the image decoder,
the resize filter and the terminal colour library are external to the
repository; they enter as the fields of `Libs` (pure library calls) and of
`World` (network and file system).

Conventions
* Go `int` is a 64-bit signed integer: arithmetic on it is `Int` arithmetic
  followed by `wrapInt`.  Go `uint` is 64 bits: `Nat` reduced modulo `2^64`.
* A run-time panic (slice index out of range) or a loop that does not
  terminate is the result `none`.
* `defer ... Close()` only releases a handle and is not modelled.
-/

namespace Imgcat

/-! ## Machine integers -/

/-- Two's-complement wrap of an integer into the range of Go's 64-bit `int`. -/
def wrapInt (x : Int) : Int := (x + 2 ^ 63) % 2 ^ 64 - 2 ^ 63

/-- The conversion `uint(x)` of a Go `int`. -/
def wrapUint (x : Int) : Nat := (x % 2 ^ 64).toNat

/-! ## Data -/

/-- A non-nil Go `error`, represented by the text its `Error()` method returns. -/
structure error where
  Error : String
deriving DecidableEq, Repr

/-- An `io.Reader` handed to the decoder: the bytes of a response body or of an
open file; `none` is the nil `*os.File` of a `loadMsg` built without a file. -/
abbrev Reader := Option (List Nat)

/-- The sparkles constant of `main.go`. -/
def sparkles : String := "✨"

/-- The struct `model` of `main.go`; `err = none` is the nil error and
`image = ""` means that no frame is stored. -/
structure model where
  selected : Int
  urls : List String
  image : String
  height : Nat
  err : Option error
deriving DecidableEq, Repr

/-- The messages `Update` can receive.  `KeyMsg` carries the value of
`msg.String()`; `other` stands for every message type the type switch does not
list. -/
inductive Msg where
  | WindowSizeMsg (Width Height : Int)
  | KeyMsg (key : String)
  | errMsg (e : error)
  | loadMsg (resp : Option (List Nat)) (file : Reader)
  | quitMsg
  | other
deriving DecidableEq, Repr

/-- The commands (`tea.Cmd` closures) this program builds: `tea.Quit`, the two
closures of `load`, and the closure `func() tea.Msg { return errMsg{err} }`. -/
inductive Cmd where
  | Quit
  | httpGet (url : String)
  | osOpen (url : String)
  | fail (e : error)
deriving DecidableEq, Repr

/-- A colour value of `image/color`, by its four channels. -/
structure RGBA where
  R : Nat
  G : Nat
  B : Nat
  A : Nat
deriving DecidableEq, Repr

/-- An `image.Point`. -/
structure Point where
  X : Int
  Y : Int
deriving DecidableEq, Repr

/-- An `image.Rectangle`. -/
structure Rectangle where
  Min : Point
  Max : Point
deriving DecidableEq, Repr

/-- An `image.Image`: its bounds and its `At` method. -/
structure Image where
  Bounds : Rectangle
  At : Int → Int → RGBA

/-- A colour of the terminal library, by the escape sequence it stands for. -/
structure TermColor where
  seq : String
deriving DecidableEq, Repr

/-- The library calls of `readerToImage`.
* `Decode r` is `image.Decode(r)`;
* `Resize w h img` is `resize.Resize(w, h, img, resize.Lanczos3)`;
* `Hex c` is `colorful.MakeColor(c)` followed by `.Hex()`;
* `Color s` is `termenv.ColorProfile().Color(s)`, the quantizer;
* `Styled s fg bg` is `termenv.String(s).Foreground(fg).Background(bg).String()`. -/
structure Libs where
  Decode : Reader → Except error Image
  Resize : Nat → Nat → Image → Image
  Hex : RGBA → String
  Color : String → TermColor
  Styled : String → TermColor → TermColor → String

/-- The outside world of `load`: `http.Get` and `os.Open`. -/
structure World where
  Get : String → Except error (List Nat)
  Open : String → Except error (List Nat)

/-! ## `load` -/

/-- The function `load`: the network closure when the reference starts with
`http`, the file closure otherwise. -/
def load (url : String) : Cmd :=
  if "http".toList.isPrefixOf url.toList then Cmd.httpGet url else Cmd.osOpen url

/-- Running a command: what the closure returns when the runtime calls it. -/
def Cmd.run (W : World) : Cmd → Msg
  | Cmd.Quit => Msg.quitMsg
  | Cmd.httpGet url =>
    match W.Get url with
    | Except.error err => Msg.errMsg err
    | Except.ok body => Msg.loadMsg (some body) none
  | Cmd.osOpen url =>
    match W.Open url with
    | Except.error err => Msg.errMsg err
    | Except.ok bytes => Msg.loadMsg none (some bytes)
  | Cmd.fail e => Msg.errMsg e

/-! ## `readerToImage` -/

/-- The state of the rasterizing loops: the contents of the `strings.Builder`
and, as a ghost field, the coordinates passed to `img.At` so far. -/
structure RasterState where
  str : String
  reads : List Point
deriving DecidableEq, Repr

/-- The quantized colour of the pixel at `(x, y)`:
`p.Color(colorful.MakeColor(img.At(x, y)).Hex())`. -/
def pixelColor (L : Libs) (img : Image) (x y : Int) : TermColor :=
  L.Color (L.Hex (img.At x y))

/-- The text one iteration of the inner loop writes. -/
def cell (L : Libs) (img : Image) (x y : Int) : String :=
  L.Styled "▀" (pixelColor L img x y) (pixelColor L img x (wrapInt (y + 1)))

/-- The inner loop `for x := 0; x < w; x++` from the value `x` on. -/
def xLoop (L : Libs) (img : Image) (w y : Int) :
    Nat → Int → RasterState → Option RasterState
  | 0, _, _ => none
  | fuel + 1, x, st =>
    if x < w then
      xLoop L img w y fuel (wrapInt (x + 1))
        ⟨st.str ++ cell L img x y, st.reads ++ [⟨x, y⟩, ⟨x, wrapInt (y + 1)⟩]⟩
    else some st

/-- The outer loop `for y := 0; y < h; y += 2` from the value `y` on. -/
def yLoop (L : Libs) (img : Image) (w h : Int) :
    Nat → Int → RasterState → Option RasterState
  | 0, _, _ => none
  | fuel + 1, y, st =>
    if y < h then
      match xLoop L img w y (w.toNat + 1) 0 st with
      | none => none
      | some st1 => yLoop L img w h fuel (wrapInt (y + 2)) ⟨st1.str ++ "\n", st1.reads⟩
    else some st

/-- Both loops of `readerToImage` over the resized image, on an empty builder. -/
def rasterLoop (L : Libs) (img : Image) : Option RasterState :=
  yLoop L img img.Bounds.Max.X img.Bounds.Max.Y (img.Bounds.Max.Y.toNat + 1) 0 ⟨"", []⟩

/-- The function `readerToImage`. -/
def readerToImage (L : Libs) (height : Nat) (url : String) (r : Reader) :
    Option (Except error String) :=
  match L.Decode r with
  | Except.error err => some (Except.error err)
  | Except.ok img =>
    match rasterLoop L (L.Resize 0 (height * 2 % 2 ^ 64) img) with
    | none => none
    | some st => some (Except.ok (st.str ++ ("q to quit | " ++ url ++ "\n")))

/-! ## The model -/

/-- The slice index expression `urls[i]`; `none` is the out-of-range panic. -/
def index (urls : List String) (i : Int) : Option String :=
  if 0 ≤ i ∧ i < urls.length then urls[i.toNat]? else none

/-- The model `main` hands to the runtime: `model{urls: os.Args[1:]}`. -/
def initialModel (urls : List String) : model :=
  ⟨0, urls, "", 0, none⟩

/-- The reader a `loadMsg` is decoded from: the response body when `resp` is
not nil, the file otherwise. -/
def loadReader (resp : Option (List Nat)) (file : Reader) : Reader :=
  match resp with
  | some body => some body
  | none => file

/-- The method `model.Update`. -/
def Update (L : Libs) (m : model) (msg : Msg) : Option (model × Option Cmd) :=
  match m.err, msg with
  | some _, Msg.KeyMsg _ => some (m, some Cmd.Quit)
  | _, Msg.WindowSizeMsg _ Height =>
    let m1 := { m with height := wrapUint Height }
    match index m1.urls m1.selected with
    | none => none
    | some url => some (m1, some (load url))
  | _, Msg.KeyMsg key =>
    if key = "ctrl+c" ∨ key = "q" then some (m, some Cmd.Quit)
    else if key = "j" ∨ key = "down" then
      let m1 :=
        if wrapInt (m.selected + 1) ≠ m.urls.length then
          { m with selected := wrapInt (m.selected + 1) }
        else { m with selected := 0 }
      match index m1.urls m1.selected with
      | none => none
      | some url => some (m1, some (load url))
    else if key = "k" ∨ key = "up" then
      let m1 :=
        if wrapInt (m.selected - 1) ≠ -1 then
          { m with selected := wrapInt (m.selected - 1) }
        else { m with selected := wrapInt (m.urls.length - 1) }
      match index m1.urls m1.selected with
      | none => none
      | some url => some (m1, some (load url))
    else some (m, none)
  | _, Msg.errMsg e => some ({ m with err := some e }, none)
  | _, Msg.loadMsg resp file =>
    match index m.urls m.selected with
    | none => none
    | some url =>
      match readerToImage L m.height url (loadReader resp file) with
      | none => none
      | some (Except.error err) => some (m, some (Cmd.fail err))
      | some (Except.ok img) => some ({ m with image := img }, none)
  | _, _ => some (m, none)

/-- The method `model.View`; `none` is the out-of-range panic of `urls[selected]`. -/
def View (m : model) : Option String :=
  match m.err with
  | some e => some ("couldn't load image(s): " ++ e.Error ++ "\n\npress any key to exit")
  | none =>
    if m.image = "" then
      match index m.urls m.selected with
      | none => none
      | some url => some ("loading " ++ url ++ " " ++ sparkles)
    else some m.image

/-- The data-model invariant: the selected index points into the list. -/
def validIndex (m : model) : Prop :=
  0 ≤ m.selected ∧ m.selected < m.urls.length

instance (m : model) : Decidable (validIndex m) :=
  inferInstanceAs (Decidable (0 ≤ m.selected ∧ m.selected < m.urls.length))

/-- A Go slice holds fewer than `2^63` elements (its length is an `int`). -/
def sliceLen (urls : List String) : Prop := urls.length < 2 ^ 63

instance (urls : List String) : Decidable (sliceLen urls) :=
  inferInstanceAs (Decidable (urls.length < 2 ^ 63))

/-- The models the runtime can reach from `m0`: `Update` applied to any
sequence of messages. -/
inductive Reachable (L : Libs) (m0 : model) : model → Prop where
  | start : Reachable L m0 m0
  | step (m m' : model) (msg : Msg) (cmd : Option Cmd) :
      Reachable L m0 m → Update L m msg = some (m', cmd) → Reachable L m0 m'

/-- The resize library returns images whose bounds are Go `int`s, the height
below the largest one (an image holds its pixels in memory). -/
def resizeInRange (L : Libs) : Prop :=
  ∀ (w h : Nat) (img : Image),
    (L.Resize w h img).Bounds.Max.X < 2 ^ 63 ∧ (L.Resize w h img).Bounds.Max.Y + 1 < 2 ^ 63

/-- The library stand-ins used for concrete evaluation: a decoder that accepts
exactly the non-empty byte streams, as a one-pixel-wide image with one row per
byte; a resize that sets the requested height (at most 48 rows, and the
image's own height when 0 is requested) and leaves the pixels alone. -/
def demoLibs : Libs where
  Decode := fun r =>
    match r with
    | some (b :: bs) =>
      Except.ok ⟨⟨⟨0, 0⟩, ⟨1, (bs.length : Int) + 1⟩⟩,
        fun _ y => ⟨(b :: bs).getD y.toNat 0, 0, 0, 255⟩⟩
    | _ => Except.error ⟨"image: unknown format"⟩
  Resize := fun _ h img =>
    ⟨⟨⟨0, 0⟩, ⟨min img.Bounds.Max.X 80,
      if h = 0 then min img.Bounds.Max.Y 48 else ((min h 48 : Nat) : Int)⟩⟩, img.At⟩
  Hex := fun c => toString c.R
  Color := fun s => ⟨s⟩
  Styled := fun s fg bg => fg.seq ++ "/" ++ bg.seq ++ ":" ++ s

/-- A world in which every fetch and every open fails. -/
def demoWorld : World where
  Get := fun url => Except.error ⟨"Get " ++ url ++ ": no such host"⟩
  Open := fun url => Except.error ⟨"open " ++ url ++ ": no such file or directory"⟩

/-- The start model over the two references of the end-to-end scenario. -/
def demoModel : model := initialModel ["a.png", "b.jpg"]

/-- The scenario model with a frame on display. -/
def shownModel : model := ⟨0, ["a.png", "b.jpg"], "frame_a", 24, none⟩

/-- A failed model. -/
def failedModel : model := ⟨1, ["a.png", "b.jpg"], "frame_a", 24, some ⟨"image: unknown format"⟩⟩

/-- The image `demoLibs` decodes from the three bytes 1, 2, 3. -/
def threeRows : Image :=
  ⟨⟨⟨0, 0⟩, ⟨1, 3⟩⟩, fun _ y => ⟨[1, 2, 3].getD y.toNat 0, 0, 0, 255⟩⟩

/-- A grid one pixel wide and one pixel high. -/
def oddImage : Image := ⟨⟨⟨0, 0⟩, ⟨1, 1⟩⟩, fun _ _ => ⟨0, 0, 0, 255⟩⟩

/-- A grid two pixels wide and two pixels high, red channel `10 * y + x`. -/
def evenImage : Image := ⟨⟨⟨0, 0⟩, ⟨2, 2⟩⟩, fun x y => ⟨(10 * y + x).toNat, 0, 0, 255⟩⟩

/-! ## Closed forms of the rasterizing loops -/

/-- Concatenation of a list of strings, in order. -/
def joinStrings : List String → String
  | [] => ""
  | s :: ss => s ++ joinStrings ss

/-- The cells of glyph row `y` in columns `x, x+1, ..., x+n-1`. -/
def cellsFrom (L : Libs) (img : Image) (y : Int) : Int → Nat → List String
  | _, 0 => []
  | x, n + 1 => cell L img x y :: cellsFrom L img y (x + 1) n

/-- The coordinates read for glyph row `y` in columns `x, ..., x+n-1`. -/
def readsFrom (y : Int) : Int → Nat → List Point
  | _, 0 => []
  | x, n + 1 => ⟨x, y⟩ :: ⟨x, wrapInt (y + 1)⟩ :: readsFrom y (x + 1) n

/-- The glyph rows for the pixel rows `y, y+2, ..., y+2(n-1)`, each `w` cells wide. -/
def rowsFrom (L : Libs) (img : Image) (w : Nat) : Int → Nat → List (List String)
  | _, 0 => []
  | y, n + 1 => cellsFrom L img y 0 w :: rowsFrom L img w (y + 2) n

/-- The coordinates read for the pixel rows `y, y+2, ..., y+2(n-1)`. -/
def gridReadsFrom (w : Nat) : Int → Nat → List Point
  | _, 0 => []
  | y, n + 1 => readsFrom y 0 w ++ gridReadsFrom w (y + 2) n

/-- The text of a grid of cells: every row is its cells in order followed by a
newline. -/
def renderRows : List (List String) → String
  | [] => ""
  | r :: rs => (joinStrings r ++ "\n") ++ renderRows rs

/-- The footer line `readerToImage` appends. -/
def footer (url : String) : String := "q to quit | " ++ url ++ "\n"

/-! ## `main` and the runtime -/

/-- The usage constant of `main.go`. -/
def usage : String :=
  "imgcat [pattern|url]\n\nExamples:\n    imgcat path/to/image.jpg\n    imgcat *.jpg\n    imgcat https://example.com/image.jpg"

/-- How the process ends: what `main` itself printed with `fmt.Println` (the
runtime draws on the terminal on its own account; that output is not part of
it) and the exit status. -/
structure Exit where
  stdout : String
  status : Nat
deriving DecidableEq, Repr

/-- The function `main` on the argument vector `os.Args`.  `Start m` is the
result of `tea.NewProgram(m).Start()`: `some none` is the nil error, `none` a
call that does not return.  The result `none` of `main` is the panic of
`os.Args[1]` on an empty vector or a run that does not end; returning from
`main` is exit status 0.  Entering and leaving the alternate screen are
terminal effects and not modelled. -/
def main (Start : model → Option (Option error)) (Args : List String) : Option Exit :=
  if Args.length = 1 then some ⟨usage ++ "\n", 1⟩
  else
    match Args[1]? with
    | none => none
    | some a =>
      if a = "-h" ∨ a = "--help" then some ⟨usage ++ "\n", 0⟩
      else
        match Start (initialModel (Args.drop 1)) with
        | none => none
        | some (some err) => some ⟨err.Error ++ "\n", 1⟩
        | some none => some ⟨"", 0⟩

/-- A world in which every open succeeds with the bytes 1, 2, 3 and every
fetch fails. -/
def fileWorld : World where
  Get := fun url => Except.error ⟨"Get " ++ url ++ ": no such host"⟩
  Open := fun _ => Except.ok [1, 2, 3]

/-- Modelled from the spec: one event through the event loop of the bubbletea
runtime (`Program.Start`, a library whose code is not under src/).  Section 5:
the state machine handles one event at a time and produces at most one
follow-up request per event, which runs off the loop and reports back as an
event; section 4.3: a quit ends the program at once.  A `quitMsg` ends the
loop (`true`); every other message goes to `Update`, and the command returned,
if any, is run and the message it reports handled in turn.  The fuel bounds the
chain of requests (window size, load result, error message is the longest). -/
def deliver (L : Libs) (W : World) : Nat → model → Msg → Option (model × Bool)
  | 0, _, _ => none
  | fuel + 1, m, msg =>
    if msg = Msg.quitMsg then some (m, true)
    else
      match Update L m msg with
      | none => none
      | some (m', none) => some (m', false)
      | some (m', some cmd) => deliver L W fuel m' (cmd.run W)

/-- Modelled from the spec: the event loop of the bubbletea runtime over the
events the terminal delivers (window sizes and keys), strictly in arrival order
(section 5).  The result is the model the loop is in and whether a quit has
ended it; events after the quit are not handled. -/
def teaLoop (L : Libs) (W : World) : List Msg → model → Option (model × Bool)
  | [], m => some (m, false)
  | ev :: evs, m =>
    match deliver L W 4 m ev with
    | none => none
    | some (m', true) => some (m', true)
    | some (m', false) => teaLoop L W evs m'

/-- Modelled from the spec: the result of `Program.Start` of the bubbletea
runtime (not under src/) on the events of a run.  A run ended by a quit returns
the nil error (section 6: quit is exit code 0).  When the events end without a
quit the result is `closed`: the error the runtime returns when its terminal
input is closed, or no return at all (`none`) while the input stays open. -/
def teaStart (L : Libs) (W : World) (closed : Option error) (events : List Msg) (m : model) :
    Option (Option error) :=
  match teaLoop L W events m with
  | none => none
  | some (_, true) => some none
  | some (_, false) => closed.map some

/-- The key `key` pressed `k` times in a row: `Update` applied `k` times, the
commands set aside. -/
def pressKeys (L : Libs) (key : String) : Nat → model → Option model
  | 0, m => some m
  | k + 1, m =>
    match Update L m (Msg.KeyMsg key) with
    | none => none
    | some (m', _) => pressKeys L key k m'

/-! ## Basic facts -/

theorem wrapInt_eq (x : Int) (h1 : -(2 ^ 63) ≤ x) (h2 : x < 2 ^ 63) : wrapInt x = x := by
  unfold wrapInt; omega

theorem index_some (urls : List String) (i : Int) (h0 : 0 ≤ i) (h1 : i < urls.length) :
    ∃ url, index urls i = some url := by
  have h2 : i.toNat < urls.length := by omega
  refine ⟨urls[i.toNat], ?_⟩
  simp [index, h0, h1, List.getElem?_eq_getElem h2]

/-- The "next" keys in a model without error: the index moves one up, or to 0
from the last position, and the reference there is loaded. -/
theorem Update_next (L : Libs) (m : model) (key : String) (herr : m.err = none)
    (hk : key = "j" ∨ key = "down") (hsel : validIndex m) (hlen : sliceLen m.urls) :
    ∃ url, index m.urls ((m.selected + 1) % m.urls.length) = some url ∧
      Update L m (Msg.KeyMsg key)
        = some ({ m with selected := (m.selected + 1) % m.urls.length }, some (load url)) := by
  obtain ⟨h0, h1⟩ := hsel
  unfold sliceLen at hlen
  have hw : wrapInt (m.selected + 1) = m.selected + 1 := wrapInt_eq _ (by omega) (by omega)
  have hq : ¬ (key = "ctrl+c" ∨ key = "q") := by
    rcases hk with rfl | rfl <;> decide
  by_cases hlast : m.selected + 1 = m.urls.length
  · have hmod : (m.selected + 1) % (m.urls.length : Int) = 0 := by
      rw [hlast]; exact Int.emod_self
    obtain ⟨url, hurl⟩ := index_some m.urls 0 (le_refl _) (by omega)
    refine ⟨url, by rw [hmod]; exact hurl, ?_⟩
    rw [hmod]
    simp only [Update, herr, hq, hk, hw, if_true, if_false, ne_eq]
    simp only [hlast, not_true_eq_false, if_false, hurl]
  · have hmod : (m.selected + 1) % (m.urls.length : Int) = m.selected + 1 :=
      Int.emod_eq_of_lt (by omega) (by omega)
    obtain ⟨url, hurl⟩ := index_some m.urls (m.selected + 1) (by omega) (by omega)
    refine ⟨url, by rw [hmod]; exact hurl, ?_⟩
    rw [hmod]
    simp only [Update, herr, hq, hk, hw, if_true, if_false, ne_eq]
    simp only [hlast, not_false_eq_true, if_true, hurl]

/-- The "previous" keys in a model without error: the index moves one down, or
to the last position from 0, and the reference there is loaded. -/
theorem Update_prev (L : Libs) (m : model) (key : String) (herr : m.err = none)
    (hk : key = "k" ∨ key = "up") (hsel : validIndex m) (hlen : sliceLen m.urls) :
    ∃ url, index m.urls ((m.selected - 1 + m.urls.length) % m.urls.length) = some url ∧
      Update L m (Msg.KeyMsg key)
        = some ({ m with selected := (m.selected - 1 + m.urls.length) % m.urls.length },
            some (load url)) := by
  obtain ⟨h0, h1⟩ := hsel
  unfold sliceLen at hlen
  have hw : wrapInt (m.selected - 1) = m.selected - 1 := wrapInt_eq _ (by omega) (by omega)
  have hwl : wrapInt ((m.urls.length : Int) - 1) = m.urls.length - 1 :=
    wrapInt_eq _ (by omega) (by omega)
  have hq : ¬ (key = "ctrl+c" ∨ key = "q") := by
    rcases hk with rfl | rfl <;> decide
  have hj : ¬ (key = "j" ∨ key = "down") := by
    rcases hk with rfl | rfl <;> decide
  by_cases hfirst : m.selected - 1 = -1
  · have hmod : (m.selected - 1 + m.urls.length) % (m.urls.length : Int)
        = m.urls.length - 1 := by
      rw [hfirst]; exact Int.emod_eq_of_lt (by omega) (by omega)
    obtain ⟨url, hurl⟩ := index_some m.urls (m.urls.length - 1) (by omega) (by omega)
    refine ⟨url, by rw [hmod]; exact hurl, ?_⟩
    rw [hmod]
    simp only [Update, herr, hq, hj, hk, hw, hwl, if_true, if_false, ne_eq]
    simp only [hfirst, not_true_eq_false, if_false, hurl]
  · have hmod : (m.selected - 1 + m.urls.length) % (m.urls.length : Int)
        = m.selected - 1 := by
      rw [Int.add_emod_self]; exact Int.emod_eq_of_lt (by omega) (by omega)
    obtain ⟨url, hurl⟩ := index_some m.urls (m.selected - 1) (by omega) (by omega)
    refine ⟨url, by rw [hmod]; exact hurl, ?_⟩
    rw [hmod]
    simp only [Update, herr, hq, hj, hk, hw, hwl, if_true, if_false, ne_eq]
    simp only [hfirst, not_false_eq_true, if_true, hurl]

/-! ## The rasterizing loops in closed form -/

theorem xLoop_eq (L : Libs) (img : Image) (w y : Int) (hw : w < 2 ^ 63) :
    ∀ (fuel : Nat) (x : Int) (st : RasterState), 0 ≤ x → (w - x).toNat < fuel →
      xLoop L img w y fuel x st
        = some ⟨st.str ++ joinStrings (cellsFrom L img y x (w - x).toNat),
            st.reads ++ readsFrom y x (w - x).toNat⟩ := by
  intro fuel
  induction fuel with
  | zero => intro x st _ h; omega
  | succ fuel ih =>
    intro x st hx hf
    by_cases hlt : x < w
    · have hwx : wrapInt (x + 1) = x + 1 := wrapInt_eq _ (by omega) (by omega)
      have hn : (w - x).toNat = (w - (x + 1)).toNat + 1 := by omega
      rw [xLoop, if_pos hlt, hwx, ih (x + 1) _ (by omega) (by omega), hn]
      simp [cellsFrom, readsFrom, joinStrings, String.append_assoc]
    · have hn : (w - x).toNat = 0 := by omega
      rw [xLoop, if_neg hlt, hn]
      simp [cellsFrom, readsFrom, joinStrings]

theorem yLoop_eq (L : Libs) (img : Image) (w h : Int) (hw : w < 2 ^ 63) (hh : h + 1 < 2 ^ 63) :
    ∀ (fuel : Nat) (y : Int) (st : RasterState), 0 ≤ y → ((h - y + 1) / 2).toNat < fuel →
      yLoop L img w h fuel y st
        = some ⟨st.str ++ renderRows (rowsFrom L img w.toNat y ((h - y + 1) / 2).toNat),
            st.reads ++ gridReadsFrom w.toNat y ((h - y + 1) / 2).toNat⟩ := by
  intro fuel
  induction fuel with
  | zero => intro y st _ h; omega
  | succ fuel ih =>
    intro y st hy hf
    by_cases hlt : y < h
    · have hwy : wrapInt (y + 2) = y + 2 := wrapInt_eq _ (by omega) (by omega)
      have hn : ((h - y + 1) / 2).toNat = ((h - (y + 2) + 1) / 2).toNat + 1 := by omega
      have hx := xLoop_eq L img w y hw (w.toNat + 1) 0 st (le_refl _) (by omega)
      rw [yLoop, if_pos hlt, hx]
      simp only [Int.sub_zero]
      rw [hwy, ih (y + 2) _ (by omega) (by omega), hn]
      simp [rowsFrom, gridReadsFrom, renderRows, String.append_assoc]
    · have hn : ((h - y + 1) / 2).toNat = 0 := by omega
      rw [yLoop, if_neg hlt, hn]
      simp [rowsFrom, gridReadsFrom, renderRows]

/-- The loops terminate on every image whose bounds are Go `int`s below the
largest one, with the closed form as result. -/
theorem rasterLoop_eq (L : Libs) (img : Image) (hw : img.Bounds.Max.X < 2 ^ 63)
    (hh : img.Bounds.Max.Y + 1 < 2 ^ 63) :
    rasterLoop L img
      = some ⟨renderRows (rowsFrom L img img.Bounds.Max.X.toNat 0
                ((img.Bounds.Max.Y + 1) / 2).toNat),
          gridReadsFrom img.Bounds.Max.X.toNat 0 ((img.Bounds.Max.Y + 1) / 2).toNat⟩ := by
  have h := yLoop_eq L img _ _ hw hh (img.Bounds.Max.Y.toNat + 1) 0 ⟨"", []⟩ (le_refl _)
    (by omega)
  simpa [rasterLoop] using h

theorem length_cellsFrom (L : Libs) (img : Image) (y : Int) :
    ∀ (n : Nat) (x : Int), (cellsFrom L img y x n).length = n := by
  intro n
  induction n with
  | zero => intro x; rfl
  | succ n ih => intro x; simp [cellsFrom, ih]

theorem length_rowsFrom (L : Libs) (img : Image) (w : Nat) :
    ∀ (n : Nat) (y : Int), (rowsFrom L img w y n).length = n := by
  intro n
  induction n with
  | zero => intro y; rfl
  | succ n ih => intro y; simp [rowsFrom, ih]

theorem getElem?_cellsFrom (L : Libs) (img : Image) (y : Int) :
    ∀ (n : Nat) (x : Int) (i : Nat), i < n →
      (cellsFrom L img y x n)[i]? = some (cell L img (x + i) y) := by
  intro n
  induction n with
  | zero => intro x i h; omega
  | succ n ih =>
    intro x i h
    cases i with
    | zero => simp [cellsFrom]
    | succ i =>
      simp only [cellsFrom, List.getElem?_cons_succ]
      rw [ih (x + 1) i (by omega)]
      congr 2; push_cast; ring

theorem getElem?_rowsFrom (L : Libs) (img : Image) (w : Nat) :
    ∀ (n : Nat) (y : Int) (j : Nat), j < n →
      (rowsFrom L img w y n)[j]? = some (cellsFrom L img (y + 2 * j) 0 w) := by
  intro n
  induction n with
  | zero => intro y j h; omega
  | succ n ih =>
    intro y j h
    cases j with
    | zero => simp [rowsFrom]
    | succ j =>
      simp only [rowsFrom, List.getElem?_cons_succ]
      rw [ih (y + 2) j (by omega)]
      congr 2; push_cast; ring

theorem mem_cellsFrom (L : Libs) (img : Image) (y : Int) :
    ∀ (n : Nat) (x : Int) (c : String), c ∈ cellsFrom L img y x n →
      ∃ i : Nat, i < n ∧ c = cell L img (x + i) y := by
  intro n
  induction n with
  | zero => intro x c h; simp [cellsFrom] at h
  | succ n ih =>
    intro x c h
    simp only [cellsFrom, List.mem_cons] at h
    rcases h with rfl | h
    · exact ⟨0, by omega, by simp⟩
    · obtain ⟨i, hi, rfl⟩ := ih (x + 1) c h
      exact ⟨i + 1, by omega, by congr 1; push_cast; ring⟩

theorem mem_rowsFrom (L : Libs) (img : Image) (w : Nat) :
    ∀ (n : Nat) (y : Int) (r : List String), r ∈ rowsFrom L img w y n →
      ∃ j : Nat, j < n ∧ r = cellsFrom L img (y + 2 * j) 0 w := by
  intro n
  induction n with
  | zero => intro y r h; simp [rowsFrom] at h
  | succ n ih =>
    intro y r h
    simp only [rowsFrom, List.mem_cons] at h
    rcases h with rfl | h
    · exact ⟨0, by omega, by simp⟩
    · obtain ⟨j, hj, rfl⟩ := ih (y + 2) r h
      exact ⟨j + 1, by omega, by congr 1; push_cast; ring⟩

theorem mem_readsFrom (y : Int) :
    ∀ (n : Nat) (x : Int) (p : Point), p ∈ readsFrom y x n →
      x ≤ p.X ∧ p.X < x + n ∧ (p.Y = y ∨ p.Y = wrapInt (y + 1)) := by
  intro n
  induction n with
  | zero => intro x p h; simp [readsFrom] at h
  | succ n ih =>
    intro x p h
    simp only [readsFrom, List.mem_cons] at h
    rcases h with rfl | rfl | h
    · simp
    · simp
    · obtain ⟨h1, h2, h3⟩ := ih (x + 1) p h
      refine ⟨by omega, by push_cast; omega, h3⟩

theorem mem_gridReadsFrom (w : Nat) :
    ∀ (n : Nat) (y : Int) (p : Point), p ∈ gridReadsFrom w y n →
      0 ≤ p.X ∧ p.X < w ∧ ∃ j : Nat, j < n ∧
        (p.Y = y + 2 * j ∨ p.Y = wrapInt (y + 2 * j + 1)) := by
  intro n
  induction n with
  | zero => intro y p h; simp [gridReadsFrom] at h
  | succ n ih =>
    intro y p h
    simp only [gridReadsFrom, List.mem_append] at h
    rcases h with h | h
    · obtain ⟨h1, h2, h3⟩ := mem_readsFrom y w 0 p h
      exact ⟨h1, by omega, 0, by omega, by simpa using h3⟩
    · obtain ⟨h1, h2, j, hj, h3⟩ := ih (y + 2) p h
      refine ⟨h1, h2, j + 1, by omega, ?_⟩
      have e1 : y + 2 + 2 * (j : Int) = y + 2 * ((j + 1 : Nat) : Int) := by push_cast; ring
      rw [e1] at h3
      exact h3

theorem resizeInRange_demoLibs : resizeInRange demoLibs := by
  intro w h img
  simp only [demoLibs]
  constructor
  · omega
  · split <;> omega

/-! ## Navigation -/

/-- C1: in a model without error whose selected index i points into its list
of n references (so the list is not empty), the keys "j" and "down" select (i + 1) mod n and the
keys "k" and "up" select (i - 1 + n) mod n; so next from n - 1 gives 0, previous
from 0 gives n - 1, and with a single reference both leave the index alone. -/
theorem navigation_is_circular (L : Libs) (m : model) (herr : m.err = none)
    (hsel : validIndex m) (hlen : sliceLen m.urls) :
    (∀ key, key = "j" ∨ key = "down" →
      ∃ m' cmd, Update L m (Msg.KeyMsg key) = some (m', cmd) ∧
        m'.selected = (m.selected + 1) % m.urls.length ∧
        (m.selected = m.urls.length - 1 → m'.selected = 0) ∧
        (m.urls.length = 1 → m'.selected = m.selected)) ∧
    (∀ key, key = "k" ∨ key = "up" →
      ∃ m' cmd, Update L m (Msg.KeyMsg key) = some (m', cmd) ∧
        m'.selected = (m.selected - 1 + m.urls.length) % m.urls.length ∧
        (m.selected = 0 → m'.selected = m.urls.length - 1) ∧
        (m.urls.length = 1 → m'.selected = m.selected)) := by
  have h0 := hsel.1
  have h1 := hsel.2
  constructor
  · intro key hk
    obtain ⟨url, _, hU⟩ := Update_next L m key herr hk hsel hlen
    refine ⟨_, _, hU, rfl, ?_, ?_⟩
    · intro h
      show (m.selected + 1) % (m.urls.length : Int) = 0
      rw [h]; simp
    · intro h
      show (m.selected + 1) % (m.urls.length : Int) = m.selected
      rw [h] at h1 ⊢; omega
  · intro key hk
    obtain ⟨url, _, hU⟩ := Update_prev L m key herr hk hsel hlen
    refine ⟨_, _, hU, rfl, ?_, ?_⟩
    · intro h
      show (m.selected - 1 + m.urls.length) % (m.urls.length : Int) = m.urls.length - 1
      rw [h]; exact Int.emod_eq_of_lt (by omega) (by omega)
    · intro h
      show (m.selected - 1 + m.urls.length) % (m.urls.length : Int) = m.selected
      rw [h] at h1 ⊢; omega

theorem navigation_is_circular_witness :
    demoModel.err = none ∧ validIndex demoModel ∧ sliceLen demoModel.urls ∧
      ∃ m' cmd, Update demoLibs demoModel (Msg.KeyMsg "up") = some (m', cmd) ∧
        m'.selected = (demoModel.selected - 1 + demoModel.urls.length)
          % demoModel.urls.length :=
  ⟨rfl, by decide, by decide, by
    obtain ⟨m', cmd, h, hs, _⟩ :=
      (navigation_is_circular demoLibs demoModel rfl (by decide) (by decide)).2
        "up" (Or.inr rfl)
    exact ⟨m', cmd, h, hs⟩⟩

/-! ## The selected index stays valid -/

/-- One step of `Update` from a model with a valid index: whatever the message,
the model returned has a valid index and the same list. -/
theorem Update_preserves (L : Libs) (m : model) (msg : Msg) (hsel : validIndex m)
    (hlen : sliceLen m.urls) (m' : model) (cmd : Option Cmd)
    (hU : Update L m msg = some (m', cmd)) : validIndex m' ∧ m'.urls = m.urls := by
  cases msg with
  | WindowSizeMsg W H =>
    obtain ⟨url, hurl⟩ := index_some m.urls m.selected hsel.1 hsel.2
    cases he : m.err <;> simp [Update, he, hurl] at hU <;>
      (obtain ⟨rfl, _⟩ := hU; exact ⟨hsel, rfl⟩)
  | KeyMsg key =>
    cases he : m.err with
    | some e =>
      simp [Update, he] at hU
      obtain ⟨rfl, _⟩ := hU
      exact ⟨hsel, rfl⟩
    | none =>
      by_cases hq : key = "ctrl+c" ∨ key = "q"
      · simp [Update, he, hq] at hU
        obtain ⟨rfl, _⟩ := hU
        exact ⟨hsel, rfl⟩
      · by_cases hj : key = "j" ∨ key = "down"
        · obtain ⟨url, _, h⟩ := Update_next L m key he hj hsel hlen
          rw [h] at hU
          simp only [Option.some.injEq, Prod.mk.injEq] at hU
          obtain ⟨rfl, _⟩ := hU
          have hpos : (0 : Int) < m.urls.length := by have := hsel.1; have := hsel.2; omega
          exact ⟨⟨Int.emod_nonneg _ (by omega), Int.emod_lt_of_pos _ hpos⟩, rfl⟩
        · by_cases hk : key = "k" ∨ key = "up"
          · obtain ⟨url, _, h⟩ := Update_prev L m key he hk hsel hlen
            rw [h] at hU
            simp only [Option.some.injEq, Prod.mk.injEq] at hU
            obtain ⟨rfl, _⟩ := hU
            have hpos : (0 : Int) < m.urls.length := by have := hsel.1; have := hsel.2; omega
            exact ⟨⟨Int.emod_nonneg _ (by omega), Int.emod_lt_of_pos _ hpos⟩, rfl⟩
          · simp only [Update, he, hq, hj, hk, if_false] at hU
            simp only [Option.some.injEq, Prod.mk.injEq] at hU
            obtain ⟨rfl, _⟩ := hU
            exact ⟨hsel, rfl⟩
  | errMsg e =>
    cases he : m.err <;> simp [Update, he] at hU <;>
      (obtain ⟨rfl, _⟩ := hU; exact ⟨hsel, rfl⟩)
  | loadMsg resp file =>
    obtain ⟨url, hurl⟩ := index_some m.urls m.selected hsel.1 hsel.2
    have hU' : (match readerToImage L m.height url (loadReader resp file) with
        | none => none
        | some (Except.error err) => some (m, some (Cmd.fail err))
        | some (Except.ok img) => some ({ m with image := img }, none))
        = some (m', cmd) := by
      cases he : m.err <;> simpa [Update, he, hurl] using hU
    cases hr : readerToImage L m.height url (loadReader resp file) with
    | none => simp [hr] at hU'
    | some r =>
      cases r with
      | error err =>
        simp [hr] at hU'
        obtain ⟨rfl, _⟩ := hU'
        exact ⟨hsel, rfl⟩
      | ok img =>
        simp [hr] at hU'
        obtain ⟨rfl, _⟩ := hU'
        exact ⟨hsel, rfl⟩
  | quitMsg =>
    cases he : m.err <;> simp [Update, he] at hU <;>
      (obtain ⟨rfl, _⟩ := hU; exact ⟨hsel, rfl⟩)
  | other =>
    cases he : m.err <;> simp [Update, he] at hU <;>
      (obtain ⟨rfl, _⟩ := hU; exact ⟨hsel, rfl⟩)

/-- The function `readerToImage` returns whenever the resized image has bounds
in range: either the decoder's error or a frame. -/
theorem readerToImage_returns (L : Libs) (hR : resizeInRange L) (height : Nat)
    (url : String) (r : Reader) : ∃ res, readerToImage L height url r = some res := by
  unfold readerToImage
  cases hd : L.Decode r with
  | error err => exact ⟨_, rfl⟩
  | ok img =>
    obtain ⟨hw, hh⟩ := hR 0 (height * 2 % 2 ^ 64) img
    simp only [rasterLoop_eq L _ hw hh]
    exact ⟨_, rfl⟩

/-- From a model with a valid index `Update` returns on every message (no
index panic, and the loops of the rasterizer terminate). -/
theorem Update_returns (L : Libs) (hR : resizeInRange L) (m : model) (msg : Msg)
    (hsel : validIndex m) (hlen : sliceLen m.urls) : ∃ res, Update L m msg = some res := by
  cases msg with
  | WindowSizeMsg W H =>
    obtain ⟨url, hurl⟩ := index_some m.urls m.selected hsel.1 hsel.2
    cases he : m.err <;> simp [Update, he, hurl]
  | KeyMsg key =>
    cases he : m.err with
    | some e => simp [Update, he]
    | none =>
      by_cases hq : key = "ctrl+c" ∨ key = "q"
      · simp [Update, he, hq]
      · by_cases hj : key = "j" ∨ key = "down"
        · obtain ⟨url, _, h⟩ := Update_next L m key he hj hsel hlen
          exact ⟨_, h⟩
        · by_cases hk : key = "k" ∨ key = "up"
          · obtain ⟨url, _, h⟩ := Update_prev L m key he hk hsel hlen
            exact ⟨_, h⟩
          · simp only [Update, he, hq, hj, hk, if_false]
            exact ⟨_, rfl⟩
  | errMsg e => cases he : m.err <;> simp [Update, he]
  | loadMsg resp file =>
    obtain ⟨url, hurl⟩ := index_some m.urls m.selected hsel.1 hsel.2
    obtain ⟨res, hres⟩ := readerToImage_returns L hR m.height url (loadReader resp file)
    cases res with
    | error err => cases he : m.err <;> simp [Update, he, hurl, hres]
    | ok img => cases he : m.err <;> simp [Update, he, hurl, hres]
  | quitMsg => cases he : m.err <;> simp [Update, he]
  | other => cases he : m.err <;> simp [Update, he]

/-- C2: from a model over a non-empty list with a selected index in range,
`Update` returns on every message (window size, any key, error, load result,
anything else), and the model it returns has a selected index in range and the
same list; so both hold in every model reachable from the initial model
(selected = 0) over a non-empty list. -/
theorem selected_index_invariant (L : Libs) (urls : List String) (hne : urls ≠ [])
    (hlen : sliceLen urls) :
    (∀ m msg, m.urls = urls → validIndex m →
      (∀ m' cmd, Update L m msg = some (m', cmd) → validIndex m' ∧ m'.urls = urls) ∧
      (resizeInRange L → ∃ m' cmd, Update L m msg = some (m', cmd))) ∧
    (∀ m, Reachable L (initialModel urls) m → validIndex m ∧ m.urls = urls) := by
  constructor
  · intro m msg hu hsel
    subst hu
    refine ⟨fun m' cmd hU => Update_preserves L m msg hsel hlen m' cmd hU, fun hR => ?_⟩
    obtain ⟨⟨m', cmd⟩, h⟩ := Update_returns L hR m msg hsel hlen
    exact ⟨m', cmd, h⟩
  · intro m hreach
    induction hreach with
    | start =>
      refine ⟨⟨le_refl _, ?_⟩, rfl⟩
      show (0 : Int) < (urls.length : Int)
      have : 0 < urls.length := List.length_pos.mpr hne
      omega
    | step m1 m2 msg cmd _ hU ih =>
      obtain ⟨hv, hu⟩ := ih
      have h := Update_preserves L m1 msg hv (by rw [hu]; exact hlen) m2 cmd hU
      exact ⟨h.1, by rw [h.2, hu]⟩

theorem selected_index_invariant_witness :
    demoModel.urls ≠ [] ∧ sliceLen demoModel.urls ∧ validIndex demoModel ∧
      resizeInRange demoLibs ∧
      (∃ m' cmd, Update demoLibs demoModel (Msg.loadMsg none (some [1, 2])) = some (m', cmd)) ∧
      (validIndex ⟨1, ["a.png", "b.jpg"], "", 0, none⟩ ∧
        (⟨1, ["a.png", "b.jpg"], "", 0, none⟩ : model).urls = ["a.png", "b.jpg"]) :=
  ⟨by decide, by decide, by decide, resizeInRange_demoLibs,
    ((selected_index_invariant demoLibs ["a.png", "b.jpg"] (by decide) (by decide)).1
      demoModel (Msg.loadMsg none (some [1, 2])) rfl (by decide)).2 resizeInRange_demoLibs,
    (selected_index_invariant demoLibs ["a.png", "b.jpg"] (by decide) (by decide)).2 _
      (Reachable.step demoModel _ (Msg.KeyMsg "j") (some (Cmd.osOpen "b.jpg"))
        Reachable.start (by decide))⟩

/-! ## Failure -/

/-- C3: whatever the model (no frame, a frame on display, or already failed),
`Update` on an error message carrying e returns the model with err set to e and
no command, and `View` renders that model as the error text; and in every model
with err set `Update` on a key message, whatever the key, returns the quit
command. -/
theorem error_message_fails (L : Libs) (m : model) (e : error) :
    Update L m (Msg.errMsg e) = some ({ m with err := some e }, none) ∧
    View { m with err := some e }
      = some ("couldn't load image(s): " ++ e.Error ++ "\n\npress any key to exit") ∧
    (∀ (m2 : model) (key : String), m2.err ≠ none →
      Update L m2 (Msg.KeyMsg key) = some (m2, some Cmd.Quit)) := by
  refine ⟨?_, rfl, ?_⟩
  · cases he : m.err <;> simp [Update, he]
  · intro m2 key h
    cases he : m2.err with
    | none => exact absurd he h
    | some e2 => simp [Update, he]

theorem error_message_fails_witness :
    failedModel.err ≠ none ∧
      Update demoLibs failedModel (Msg.KeyMsg "x") = some (failedModel, some Cmd.Quit) :=
  ⟨by decide,
    (error_message_fails demoLibs demoModel ⟨"image: unknown format"⟩).2.2 failedModel "x"
      (by decide)⟩

/-! ## What is on screen after a navigation key -/

/-- C4, as the claim states it, fails: with the frame of a.png on display the
key "j" selects b.jpg and issues its load, and `View` still returns the stored
frame, not the placeholder naming b.jpg. -/
theorem next_shows_placeholder_counterexample :
    shownModel.err = none ∧ validIndex shownModel ∧
      Update demoLibs shownModel (Msg.KeyMsg "j")
        = some (⟨1, ["a.png", "b.jpg"], "frame_a", 24, none⟩, some (Cmd.osOpen "b.jpg")) ∧
      View ⟨1, ["a.png", "b.jpg"], "frame_a", 24, none⟩ = some "frame_a" ∧
      View ⟨1, ["a.png", "b.jpg"], "frame_a", 24, none⟩ ≠ some ("loading b.jpg " ++ sparkles) := by
  decide

/-- C4, amended: in a model without error and with a selected index in range, a
"next" or "previous" key returns a model with the stored frame untouched and a
load command for the newly selected reference; `View` of it is the "loading"
placeholder naming that reference when no frame is stored, and the stored frame
otherwise. -/
theorem navigation_view (L : Libs) (m : model) (key : String) (herr : m.err = none)
    (hsel : validIndex m) (hlen : sliceLen m.urls)
    (hk : (key = "j" ∨ key = "down") ∨ (key = "k" ∨ key = "up")) :
    ∃ m' url, Update L m (Msg.KeyMsg key) = some (m', some (load url)) ∧
      index m'.urls m'.selected = some url ∧ m'.image = m.image ∧ m'.err = none ∧
      (m.image = "" → View m' = some ("loading " ++ url ++ " " ++ sparkles)) ∧
      (m.image ≠ "" → View m' = some m.image) := by
  rcases hk with hk | hk
  · obtain ⟨url, hurl, hU⟩ := Update_next L m key herr hk hsel hlen
    refine ⟨_, url, hU, hurl, rfl, herr, ?_, ?_⟩
    · intro hi; simp only [View, herr, hi, hurl, if_true]
    · intro hi; simp [View, herr, hi]
  · obtain ⟨url, hurl, hU⟩ := Update_prev L m key herr hk hsel hlen
    refine ⟨_, url, hU, hurl, rfl, herr, ?_, ?_⟩
    · intro hi; simp only [View, herr, hi, hurl, if_true]
    · intro hi; simp [View, herr, hi]

theorem navigation_view_witness :
    demoModel.err = none ∧ validIndex demoModel ∧ sliceLen demoModel.urls ∧
      ∃ m' url, Update demoLibs demoModel (Msg.KeyMsg "down") = some (m', some (load url)) ∧
        View m' = some ("loading " ++ url ++ " " ++ sparkles) :=
  ⟨rfl, by decide, by decide, by
    obtain ⟨m', url, hU, _, _, _, hv, _⟩ :=
      navigation_view demoLibs demoModel "down" rfl (by decide) (by decide)
        (Or.inl (Or.inr rfl))
    exact ⟨m', url, hU, hv rfl⟩⟩

/-! ## The rasterizer -/

/-- The frame `readerToImage` returns for a decodable image, in closed form:
the rendered glyph rows of the resized image followed by the footer. -/
theorem readerToImage_ok (L : Libs) (height : Nat) (url : String) (r : Reader) (img : Image)
    (hdec : L.Decode r = Except.ok img)
    (hw : (L.Resize 0 (height * 2 % 2 ^ 64) img).Bounds.Max.X < 2 ^ 63)
    (hh : (L.Resize 0 (height * 2 % 2 ^ 64) img).Bounds.Max.Y + 1 < 2 ^ 63) :
    readerToImage L height url r
      = some (Except.ok (renderRows
          (rowsFrom L (L.Resize 0 (height * 2 % 2 ^ 64) img)
            (L.Resize 0 (height * 2 % 2 ^ 64) img).Bounds.Max.X.toNat 0
            (((L.Resize 0 (height * 2 % 2 ^ 64) img).Bounds.Max.Y + 1) / 2).toNat)
          ++ footer url)) := by
  unfold readerToImage
  simp only [hdec, rasterLoop_eq L _ hw hh]
  rfl

/-- C5: for a decodable image and a height argument t (every t, so every
positive even one), when resize returns a grid of width w and height 2 * t with
origin (0, 0), the string `readerToImage` returns is the footer preceded by
exactly t rows, each ended by a newline and made of exactly w cells, and every
cell is the upper-half block styled with a foreground and a background colour. -/
theorem rasterize_dimensions (L : Libs) (t : Nat) (url : String) (r : Reader) (img : Image)
    (w : Nat) (hdec : L.Decode r = Except.ok img)
    (hres : (L.Resize 0 (t * 2 % 2 ^ 64) img).Bounds = ⟨⟨0, 0⟩, ⟨w, 2 * t⟩⟩)
    (hw : (w : Int) < 2 ^ 63) (ht : (2 * t : Int) < 2 ^ 63) :
    ∃ grid : List (List String),
      readerToImage L t url r = some (Except.ok (renderRows grid ++ footer url)) ∧
      grid.length = t ∧
      ∀ row ∈ grid, row.length = w ∧ ∀ c ∈ row, ∃ fg bg, c = L.Styled "▀" fg bg := by
  have hX : (L.Resize 0 (t * 2 % 2 ^ 64) img).Bounds.Max.X = w := by rw [hres]
  have hY : (L.Resize 0 (t * 2 % 2 ^ 64) img).Bounds.Max.Y = 2 * t := by rw [hres]
  have h := readerToImage_ok L t url r img hdec (by rw [hX]; exact hw) (by rw [hY]; omega)
  rw [hX, hY] at h
  have hn : (((2 : Int) * t + 1) / 2).toNat = t := by omega
  rw [hn, Int.toNat_ofNat] at h
  refine ⟨_, h, length_rowsFrom L _ w t 0, ?_⟩
  intro row hrow
  obtain ⟨j, _, rfl⟩ := mem_rowsFrom L _ w t 0 row hrow
  refine ⟨length_cellsFrom L _ _ w 0, ?_⟩
  intro c hc
  obtain ⟨i, _, rfl⟩ := mem_cellsFrom L _ _ w 0 c hc
  exact ⟨_, _, rfl⟩

theorem rasterize_dimensions_witness :
    demoLibs.Decode (some [1, 2, 3]) = Except.ok threeRows ∧
      (demoLibs.Resize 0 (2 * 2 % 2 ^ 64) threeRows).Bounds
        = ⟨⟨0, 0⟩, ⟨((1 : Nat) : Int), 2 * ((2 : Nat) : Int)⟩⟩ ∧
      ∃ grid : List (List String),
        readerToImage demoLibs 2 "a.png" (some [1, 2, 3])
          = some (Except.ok (renderRows grid ++ footer "a.png")) ∧
        grid.length = 2 ∧
        ∀ row ∈ grid, row.length = 1 ∧ ∀ c ∈ row, ∃ fg bg, c = demoLibs.Styled "▀" fg bg :=
  ⟨rfl, by decide,
    rasterize_dimensions demoLibs 2 "a.png" (some [1, 2, 3]) threeRows 1 rfl (by decide)
      (by decide) (by decide)⟩

/-- C6: for a resized grid of width w and even height h (origin (0, 0)), the
frame `readerToImage` returns is the rendering of a grid of cells in which, for
every even y below h and every x below w, the cell at row y / 2 and column x is
the upper-half block with the quantized colour of pixel (x, y) as foreground and
that of pixel (x, y + 1) as background; rows are written in increasing y and the
cells of a row in increasing x. -/
theorem glyph_mapping (L : Libs) (height : Nat) (url : String) (r : Reader) (img : Image)
    (w h : Nat) (hdec : L.Decode r = Except.ok img)
    (hres : (L.Resize 0 (height * 2 % 2 ^ 64) img).Bounds = ⟨⟨0, 0⟩, ⟨w, h⟩⟩)
    (hw : (w : Int) < 2 ^ 63) (hh : (h : Int) < 2 ^ 63) (heven : h % 2 = 0) :
    ∃ grid : List (List String),
      readerToImage L height url r = some (Except.ok (renderRows grid ++ footer url)) ∧
      ∀ x y : Nat, x < w → y < h → y % 2 = 0 →
        ∃ row, grid[y / 2]? = some row ∧
          row[x]? = some (L.Styled "▀"
            (pixelColor L (L.Resize 0 (height * 2 % 2 ^ 64) img) x y)
            (pixelColor L (L.Resize 0 (height * 2 % 2 ^ 64) img) x (y + 1))) := by
  have hX : (L.Resize 0 (height * 2 % 2 ^ 64) img).Bounds.Max.X = w := by rw [hres]
  have hY : (L.Resize 0 (height * 2 % 2 ^ 64) img).Bounds.Max.Y = h := by rw [hres]
  have hfr := readerToImage_ok L height url r img hdec (by rw [hX]; exact hw)
    (by rw [hY]; omega)
  rw [hX, hY] at hfr
  rw [Int.toNat_ofNat] at hfr
  refine ⟨_, hfr, ?_⟩
  intro x y hx hy hy2
  have hj : y / 2 < (((h : Int) + 1) / 2).toNat := by omega
  refine ⟨_, getElem?_rowsFrom L _ w _ 0 (y / 2) hj, ?_⟩
  rw [getElem?_cellsFrom L _ _ w 0 x hx]
  have e1 : (0 : Int) + 2 * ((y / 2 : Nat) : Int) = y := by omega
  have e2 : (0 : Int) + (x : Int) = x := by omega
  rw [e1, e2]
  have e3 : wrapInt ((y : Int) + 1) = y + 1 := wrapInt_eq _ (by omega) (by omega)
  simp only [cell, e3]

theorem glyph_mapping_witness :
    demoLibs.Decode (some [1, 2, 3]) = Except.ok threeRows ∧
      (demoLibs.Resize 0 (1 * 2 % 2 ^ 64) threeRows).Bounds
        = ⟨⟨0, 0⟩, ⟨((1 : Nat) : Int), ((2 : Nat) : Int)⟩⟩ ∧
      ∃ grid : List (List String),
        readerToImage demoLibs 1 "a.png" (some [1, 2, 3])
          = some (Except.ok (renderRows grid ++ footer "a.png")) ∧
        ∃ row, grid[0]? = some row ∧ row[0]? = some "1/2:▀" :=
  ⟨rfl, by decide, by
    obtain ⟨grid, hfr, hcells⟩ :=
      glyph_mapping demoLibs 1 "a.png" (some [1, 2, 3]) threeRows 1 2 rfl (by decide)
        (by decide) (by decide) (by decide)
    obtain ⟨row, h1, h2⟩ := hcells 0 0 (by decide) (by decide) (by decide)
    exact ⟨grid, hfr, row, h1, by rw [h2]; decide⟩⟩

/-- C7, as the claim states it, fails: on a grid one pixel wide and one pixel
high the loop reads the pixel (0, 0) and then the pixel (0, 1), which lies in
row h = 1, outside the grid. -/
theorem reads_past_last_row_counterexample :
    oddImage.Bounds = ⟨⟨0, 0⟩, ⟨1, 1⟩⟩ ∧
      rasterLoop demoLibs oddImage = some ⟨"0/0:▀\n", [⟨0, 0⟩, ⟨0, 1⟩]⟩ ∧
      ¬ ((⟨0, 1⟩ : Point).Y < oddImage.Bounds.Max.Y) := by
  decide

/-- C7, amended: on a grid of width w and even height h the loops terminate
and every coordinate (x, y) they read has 0 ≤ x < w and 0 ≤ y < h, so that no
read leaves the grid. -/
theorem reads_in_bounds (L : Libs) (img : Image) (hw : img.Bounds.Max.X < 2 ^ 63)
    (hh : img.Bounds.Max.Y < 2 ^ 63) (heven : img.Bounds.Max.Y % 2 = 0) :
    ∃ st, rasterLoop L img = some st ∧
      ∀ p ∈ st.reads, 0 ≤ p.X ∧ p.X < img.Bounds.Max.X ∧ 0 ≤ p.Y ∧ p.Y < img.Bounds.Max.Y := by
  refine ⟨_, rasterLoop_eq L img hw (by omega), ?_⟩
  intro p hp
  obtain ⟨h1, h2, j, hj, h3⟩ := mem_gridReadsFrom _ _ 0 p hp
  have e : wrapInt (0 + 2 * (j : Int) + 1) = 0 + 2 * (j : Int) + 1 :=
    wrapInt_eq _ (by omega) (by omega)
  rw [e] at h3
  refine ⟨h1, by omega, by omega, by omega⟩

theorem reads_in_bounds_witness :
    evenImage.Bounds.Max.X < 2 ^ 63 ∧ evenImage.Bounds.Max.Y < 2 ^ 63 ∧
      evenImage.Bounds.Max.Y % 2 = 0 ∧
      ∃ st, rasterLoop demoLibs evenImage = some st ∧
        ∀ p ∈ st.reads, 0 ≤ p.X ∧ p.X < evenImage.Bounds.Max.X ∧ 0 ≤ p.Y ∧
          p.Y < evenImage.Bounds.Max.Y :=
  ⟨by decide, by decide, by decide,
    reads_in_bounds demoLibs evenImage (by decide) (by decide) (by decide)⟩

/-! ## Quit, window size, decode failure -/

/-- C8: in every model (err set or not, frame stored or not) `Update` on the
key "q" and on the key "ctrl+c" returns the quit command and the model
unchanged. -/
theorem quit_keys (L : Libs) (m : model) :
    Update L m (Msg.KeyMsg "q") = some (m, some Cmd.Quit) ∧
    Update L m (Msg.KeyMsg "ctrl+c") = some (m, some Cmd.Quit) := by
  cases he : m.err <;> simp [Update, he]

/-- C9: in a model whose selected index is in range, `Update` on a window-size
message of height H ≥ 0 returns the model with height H and every other field
unchanged, and the load command for the reference urls[selected]; from the
initial model over a.png and b.jpg that is the load of a.png, which opens the
file. -/
theorem window_size_loads_selected (L : Libs) (m : model) (W H : Int)
    (hsel : validIndex m) (hH0 : 0 ≤ H) (hH : H < 2 ^ 63) :
    (∃ url, index m.urls m.selected = some url ∧
      Update L m (Msg.WindowSizeMsg W H)
        = some ({ m with height := H.toNat }, some (load url))) ∧
    ((H.toNat : Int) = H) ∧
    Update L (initialModel ["a.png", "b.jpg"]) (Msg.WindowSizeMsg W H)
      = some (⟨0, ["a.png", "b.jpg"], "", H.toNat, none⟩, some (load "a.png")) ∧
    load "a.png" = Cmd.osOpen "a.png" := by
  have hu : wrapUint H = H.toNat := by
    unfold wrapUint
    congr 1
    omega
  refine ⟨?_, by omega, ?_, by decide⟩
  · obtain ⟨url, hurl⟩ := index_some m.urls m.selected hsel.1 hsel.2
    refine ⟨url, hurl, ?_⟩
    cases he : m.err <;> simp [Update, he, hurl, hu]
  · have hi : index ["a.png", "b.jpg"] 0 = some "a.png" := by decide
    simp [Update, initialModel, hi, hu]

theorem window_size_loads_selected_witness :
    validIndex shownModel ∧ (0 : Int) ≤ 24 ∧ (24 : Int) < 2 ^ 63 ∧
      ∃ url, index shownModel.urls shownModel.selected = some url ∧
        Update demoLibs shownModel (Msg.WindowSizeMsg 80 24)
          = some ({ shownModel with height := (24 : Int).toNat }, some (load url)) :=
  ⟨by decide, by decide, by decide,
    (window_size_loads_selected demoLibs shownModel 80 24 (by decide) (by decide)
      (by decide)).1⟩

/-- C10: in a model whose selected index is in range, when the decoder rejects
the payload of a load-result message with error e, `Update` returns the model
unchanged (no frame is stored) with a command whose message is the error
message carrying e, and `Update` on that message sets err to exactly e and
leaves selected, height and the stored frame as they were. -/
theorem decode_failure_fails (L : Libs) (W : World) (m : model)
    (resp : Option (List Nat)) (file : Reader) (e : error) (hsel : validIndex m)
    (hdec : L.Decode (loadReader resp file) = Except.error e) :
    ∃ cmd, Update L m (Msg.loadMsg resp file) = some (m, some cmd) ∧
      cmd.run W = Msg.errMsg e ∧
      Update L m (cmd.run W) = some (⟨m.selected, m.urls, m.image, m.height, some e⟩, none) := by
  obtain ⟨url, hurl⟩ := index_some m.urls m.selected hsel.1 hsel.2
  have hr : readerToImage L m.height url (loadReader resp file) = some (Except.error e) := by
    simp [readerToImage, hdec]
  refine ⟨Cmd.fail e, ?_, rfl, ?_⟩
  · cases he : m.err <;> simp [Update, he, hurl, hr]
  · cases he : m.err <;> simp [Update, Cmd.run, he]

theorem decode_failure_fails_witness :
    validIndex shownModel ∧
      demoLibs.Decode (loadReader none (some [])) = Except.error ⟨"image: unknown format"⟩ ∧
      ∃ cmd, Update demoLibs shownModel (Msg.loadMsg none (some [])) = some (shownModel, some cmd) ∧
        cmd.run demoWorld = Msg.errMsg ⟨"image: unknown format"⟩ ∧
        Update demoLibs shownModel (cmd.run demoWorld)
          = some (⟨0, ["a.png", "b.jpg"], "frame_a", 24, some ⟨"image: unknown format"⟩⟩, none) :=
  ⟨by decide, rfl,
    decode_failure_fails demoLibs demoWorld shownModel none (some []) ⟨"image: unknown format"⟩
      (by decide) rfl⟩

/-! ## The error text and the stored frame -/

/-- C11: in every model whose err is set to e, whatever the stored frame and
the selected index, `View` returns exactly the text "couldn't load image(s): ",
the description of e, and "\n\npress any key to exit": the error verbatim and
the exit prompt, not the stored frame and not the loading placeholder. -/
theorem view_of_failed (m : model) (e : error) (herr : m.err = some e) :
    View m = some ("couldn't load image(s): " ++ e.Error ++ "\n\npress any key to exit") := by
  simp [View, herr]

theorem view_of_failed_witness :
    failedModel.err = some ⟨"image: unknown format"⟩ ∧
      View failedModel
        = some ("couldn't load image(s): " ++ "image: unknown format"
            ++ "\n\npress any key to exit") :=
  ⟨rfl, view_of_failed failedModel ⟨"image: unknown format"⟩ rfl⟩

theorem frame_ne_empty (rows url : String) : rows ++ ("q to quit | " ++ url ++ "\n") ≠ "" := by
  intro h
  have h2 := congrArg String.length h
  simp only [String.length_append] at h2
  have h3 : "\n".length = 1 := by decide
  have h4 : "".length = 0 := by decide
  omega

/-- What `Update` does with a load result whose payload decodes: the frame of
`readerToImage` for the selected reference is stored and no command issued. -/
theorem Update_load_ok (L : Libs) (m : model) (resp : Option (List Nat)) (file : Reader)
    (img : Image) (url : String) (hurl : index m.urls m.selected = some url)
    (hdec : L.Decode (loadReader resp file) = Except.ok img)
    (hw : (L.Resize 0 (m.height * 2 % 2 ^ 64) img).Bounds.Max.X < 2 ^ 63)
    (hh : (L.Resize 0 (m.height * 2 % 2 ^ 64) img).Bounds.Max.Y + 1 < 2 ^ 63) :
    Update L m (Msg.loadMsg resp file)
      = some ({ m with image := (renderRows
          (rowsFrom L (L.Resize 0 (m.height * 2 % 2 ^ 64) img)
            (L.Resize 0 (m.height * 2 % 2 ^ 64) img).Bounds.Max.X.toNat 0
            (((L.Resize 0 (m.height * 2 % 2 ^ 64) img).Bounds.Max.Y + 1) / 2).toNat)
          ++ footer url) }, none) := by
  have hr := readerToImage_ok L m.height url (loadReader resp file) img hdec hw hh
  cases he : m.err <;> simp [Update, he, hurl, hr]

/-- C12: in a model without error (selected index in range), when the payload
of a load-result message decodes, `Update` stores as frame the rendered glyph
rows of the resized image followed by the one line "q to quit | ", the reference
urls[selected] selected at that moment, and a newline; it issues no command,
and `View` of the new model returns that frame unchanged. -/
theorem load_success_stores_frame (L : Libs) (hR : resizeInRange L) (m : model)
    (resp : Option (List Nat)) (file : Reader) (img : Image) (herr : m.err = none)
    (hsel : validIndex m) (hdec : L.Decode (loadReader resp file) = Except.ok img) :
    ∃ url frame, index m.urls m.selected = some url ∧
      frame = renderRows
          (rowsFrom L (L.Resize 0 (m.height * 2 % 2 ^ 64) img)
            (L.Resize 0 (m.height * 2 % 2 ^ 64) img).Bounds.Max.X.toNat 0
            (((L.Resize 0 (m.height * 2 % 2 ^ 64) img).Bounds.Max.Y + 1) / 2).toNat)
          ++ ("q to quit | " ++ url ++ "\n") ∧
      Update L m (Msg.loadMsg resp file) = some ({ m with image := frame }, none) ∧
      View { m with image := frame } = some frame := by
  obtain ⟨url, hurl⟩ := index_some m.urls m.selected hsel.1 hsel.2
  obtain ⟨hw, hh⟩ := hR 0 (m.height * 2 % 2 ^ 64) img
  refine ⟨url, _, hurl, rfl, Update_load_ok L m resp file img url hurl hdec hw hh, ?_⟩
  simp only [View, herr, frame_ne_empty, if_false]

theorem load_success_stores_frame_witness :
    resizeInRange demoLibs ∧ demoModel.err = none ∧ validIndex demoModel ∧
      demoLibs.Decode (loadReader none (some [1, 2, 3])) = Except.ok threeRows ∧
      ∃ url frame, index demoModel.urls demoModel.selected = some url ∧
        Update demoLibs demoModel (Msg.loadMsg none (some [1, 2, 3]))
          = some ({ demoModel with image := frame }, none) ∧
        View { demoModel with image := frame } = some frame :=
  ⟨resizeInRange_demoLibs, rfl, by decide, rfl, by
    obtain ⟨url, frame, h1, _, h3, h4⟩ :=
      load_success_stores_frame demoLibs resizeInRange_demoLibs demoModel none
        (some [1, 2, 3]) threeRows rfl (by decide) rfl
    exact ⟨url, frame, h1, h3, h4⟩⟩

/-- C13, as the claim states it, fails: with a recorded height of H = 2 rows
the image is resized to a height of 4 pixels and the stored frame has 2 glyph
rows, not H / 2 = 1. -/
theorem half_height_counterexample :
    (demoLibs.Resize 0 (2 * 2 % 2 ^ 64) threeRows).Bounds.Max.Y = 4 ∧
      Update demoLibs ⟨0, ["a.png", "b.jpg"], "", 2, none⟩ (Msg.loadMsg none (some [1, 2, 3]))
        = some (⟨0, ["a.png", "b.jpg"],
            renderRows [["1/2:▀"], ["3/0:▀"]] ++ footer "a.png", 2, none⟩, none) ∧
      [["1/2:▀"], ["3/0:▀"]].length ≠ 2 / 2 := by
  decide

/-- C13, amended: in a model with a selected index in range whose recorded
height is H (H positive and even, 2 * H below 2^63), the rows of cells asked of
the rasterizer when a load succeeds are H, not H / 2: the resize is asked for a
height of 2 * H pixels, and given that it returns a grid of width w (below
2^63) and height 2 * H with origin (0, 0), the stored frame has exactly H glyph
rows before the footer. -/
theorem frame_rows_equal_height (L : Libs) (m : model) (resp : Option (List Nat))
    (file : Reader) (img : Image) (w : Nat) (hsel : validIndex m)
    (hdec : L.Decode (loadReader resp file) = Except.ok img)
    (hpos : 0 < m.height) (_heven : m.height % 2 = 0)
    (hw : (w : Int) < 2 ^ 63) (hH : 2 * (m.height : Int) < 2 ^ 63)
    (hres : (L.Resize 0 (2 * m.height) img).Bounds = ⟨⟨0, 0⟩, ⟨w, 2 * m.height⟩⟩) :
    ∃ url grid, index m.urls m.selected = some url ∧
      grid = rowsFrom L (L.Resize 0 (2 * m.height) img) w 0 m.height ∧
      grid.length = m.height ∧ grid.length ≠ m.height / 2 ∧
      Update L m (Msg.loadMsg resp file)
        = some ({ m with image := renderRows grid ++ footer url }, none) := by
  obtain ⟨url, hurl⟩ := index_some m.urls m.selected hsel.1 hsel.2
  have hmod : m.height * 2 % 2 ^ 64 = 2 * m.height := by omega
  have hX : (L.Resize 0 (m.height * 2 % 2 ^ 64) img).Bounds.Max.X = w := by
    rw [hmod, hres]
  have hY : (L.Resize 0 (m.height * 2 % 2 ^ 64) img).Bounds.Max.Y = 2 * m.height := by
    rw [hmod, hres]
  have hU := Update_load_ok L m resp file img url hurl hdec (by rw [hX]; exact hw)
    (by rw [hY]; omega)
  rw [hX, hY] at hU
  have hn : (((2 : Int) * m.height + 1) / 2).toNat = m.height := by omega
  rw [hn, Int.toNat_ofNat, hmod] at hU
  have hlen := length_rowsFrom L (L.Resize 0 (2 * m.height) img) w m.height 0
  exact ⟨url, _, hurl, rfl, hlen, by rw [hlen]; omega, hU⟩

theorem frame_rows_equal_height_witness :
    validIndex (⟨0, ["a.png", "b.jpg"], "", 2, none⟩ : model) ∧
      demoLibs.Decode (loadReader none (some [1, 2, 3])) = Except.ok threeRows ∧
      0 < 2 ∧ 2 % 2 = 0 ∧
      (demoLibs.Resize 0 (2 * 2) threeRows).Bounds
        = ⟨⟨0, 0⟩, ⟨((1 : Nat) : Int), 2 * ((2 : Nat) : Int)⟩⟩ ∧
      ∃ url grid, index ["a.png", "b.jpg"] 0 = some url ∧
        grid.length = 2 ∧
        Update demoLibs ⟨0, ["a.png", "b.jpg"], "", 2, none⟩ (Msg.loadMsg none (some [1, 2, 3]))
          = some (⟨0, ["a.png", "b.jpg"], renderRows grid ++ footer url, 2, none⟩, none) :=
  ⟨by decide, rfl, by decide, by decide, by decide, by
    obtain ⟨url, grid, h1, _, h3, _, h5⟩ :=
      frame_rows_equal_height demoLibs ⟨0, ["a.png", "b.jpg"], "", 2, none⟩ none
        (some [1, 2, 3]) threeRows 1 (by decide) rfl (by decide) (by decide) (by decide)
        (by decide) (by decide)
    exact ⟨url, grid, h1, h3, h5⟩⟩

/-! ## `load` -/

theorem isPrefixOf_http_iff (s : String) :
    "http".toList.isPrefixOf s.toList = true ↔ ∃ rest : String, s = "http" ++ rest := by
  rw [List.isPrefixOf_iff_prefix]
  constructor
  · rintro ⟨t, ht⟩
    refine ⟨⟨t⟩, ?_⟩
    apply String.ext
    rw [String.data_append]
    exact ht.symm
  · rintro ⟨rest, rfl⟩
    exact ⟨rest.data, (String.data_append _ _).symm⟩

/-- C14: for every reference s, `load` builds the network command (HTTP GET of
s) exactly when s starts with the four characters "http", and the file-open
command of s otherwise; when run, either command gives the error message of a
failed fetch or open, and the load-result message carrying the response or the
file on success. -/
theorem load_branches (W : World) (s : String) :
    (load s = Cmd.httpGet s ↔ ∃ rest : String, s = "http" ++ rest) ∧
    (load s = Cmd.osOpen s ↔ ¬ ∃ rest : String, s = "http" ++ rest) ∧
    (∀ e, W.Get s = Except.error e → (Cmd.httpGet s).run W = Msg.errMsg e) ∧
    (∀ body, W.Get s = Except.ok body →
      (Cmd.httpGet s).run W = Msg.loadMsg (some body) none) ∧
    (∀ e, W.Open s = Except.error e → (Cmd.osOpen s).run W = Msg.errMsg e) ∧
    (∀ bytes, W.Open s = Except.ok bytes →
      (Cmd.osOpen s).run W = Msg.loadMsg none (some bytes)) := by
  refine ⟨?_, ?_, ?_, ?_, ?_, ?_⟩
  · rw [← isPrefixOf_http_iff]
    unfold load
    by_cases h : "http".toList.isPrefixOf s.toList = true <;> simp [h]
  · rw [← isPrefixOf_http_iff]
    unfold load
    by_cases h : "http".toList.isPrefixOf s.toList = true <;> simp [h]
  · intro e h; simp [Cmd.run, h]
  · intro body h; simp [Cmd.run, h]
  · intro e h; simp [Cmd.run, h]
  · intro bytes h; simp [Cmd.run, h]

theorem load_branches_witness :
    demoWorld.Get "https://example.com/image.jpg"
        = Except.error ⟨"Get https://example.com/image.jpg: no such host"⟩ ∧
      load "https://example.com/image.jpg" = Cmd.httpGet "https://example.com/image.jpg" ∧
      (Cmd.httpGet "https://example.com/image.jpg").run demoWorld
        = Msg.errMsg ⟨"Get https://example.com/image.jpg: no such host"⟩ :=
  ⟨rfl,
    (load_branches demoWorld "https://example.com/image.jpg").1.mpr
      ⟨"s://example.com/image.jpg", by decide⟩,
    (load_branches demoWorld "https://example.com/image.jpg").2.2.1 _ rfl⟩

/-! ## `main` -/

/-- C15: with nothing after the program name `main` prints the usage text and
exits with status 1; with "-h" or "--help" as first argument it prints the
usage text and exits with status 0; otherwise the model handed to the runtime
has as reference list exactly the arguments after the program name, in order,
with selected = 0, no frame and no error (and the exit status is 1 with the
error printed when `Start` returns an error, 0 when it returns nil). -/
theorem main_arguments (Start : model → Option (Option error)) (prog : String) :
    main Start [prog] = some ⟨usage ++ "\n", 1⟩ ∧
    (∀ rest, main Start (prog :: "-h" :: rest) = some ⟨usage ++ "\n", 0⟩) ∧
    (∀ rest, main Start (prog :: "--help" :: rest) = some ⟨usage ++ "\n", 0⟩) ∧
    (∀ a rest, a ≠ "-h" → a ≠ "--help" →
      main Start (prog :: a :: rest)
        = match Start ⟨0, a :: rest, "", 0, none⟩ with
          | none => none
          | some (some err) => some ⟨err.Error ++ "\n", 1⟩
          | some none => some ⟨"", 0⟩) := by
  refine ⟨by simp [main], ?_, ?_, ?_⟩
  · intro rest; simp [main]
  · intro rest; simp [main]
  · intro a rest h1 h2
    simp [main, h1, h2, initialModel]

theorem main_arguments_witness :
    "a.png" ≠ "-h" ∧ "a.png" ≠ "--help" ∧
      main (fun m => if m = ⟨0, ["a.png", "b.jpg"], "", 0, none⟩ then some none else none)
        ["imgcat", "a.png", "b.jpg"] = some ⟨"", 0⟩ :=
  ⟨by decide, by decide,
    ((main_arguments
      (fun m => if m = ⟨0, ["a.png", "b.jpg"], "", 0, none⟩ then some none else none)
      "imgcat").2.2.2 "a.png" ["b.jpg"] (by decide) (by decide)).trans (by decide)⟩

/-- A key on which `Update` returns the model and the quit command ends the
event loop. -/
theorem deliver_quit (L : Libs) (W : World) (m : model) (key : String)
    (hU : Update L m (Msg.KeyMsg key) = some (m, some Cmd.Quit)) :
    deliver L W 4 m (Msg.KeyMsg key) = some (m, true) := by
  simp [deliver, hU, Cmd.run]

/-- Events handled without a quit leave the loop in its model, ready for the
events that follow. -/
theorem teaLoop_append (L : Libs) (W : World) (rest : List Msg) :
    ∀ (pre : List Msg) (m m' : model), teaLoop L W pre m = some (m', false) →
      teaLoop L W (pre ++ rest) m = teaLoop L W rest m' := by
  intro pre
  induction pre with
  | nil =>
    intro m m' h
    simp only [teaLoop, Option.some.injEq, Prod.mk.injEq, and_true] at h
    subst h
    rfl
  | cons ev evs ih =>
    intro m m' h
    simp only [List.cons_append]
    cases hd : deliver L W 4 m ev with
    | none => simp [teaLoop, hd] at h
    | some res =>
      obtain ⟨m1, b⟩ := res
      cases b with
      | true => simp [teaLoop, hd] at h
      | false =>
        simp only [teaLoop, hd] at h
        have e : teaLoop L W (ev :: (evs ++ rest)) m = teaLoop L W (evs ++ rest) m1 := by
          simp only [teaLoop, hd]
        rw [e]
        exact ih m1 m' h

/-- C16, as the claim states it, fails: over the one reference missing.png the
window-size message issues the load, the open fails and the loop is in the
failed state; after the key "x" the process ends with exit status 0, not with a
non-zero one. -/
theorem failed_run_exit_counterexample :
    teaLoop demoLibs demoWorld [Msg.WindowSizeMsg 80 24] (initialModel ["missing.png"])
        = some (⟨0, ["missing.png"], "", 24,
            some ⟨"open missing.png: no such file or directory"⟩⟩, false) ∧
      Option.map (fun out => out.status)
        (main (teaStart demoLibs demoWorld none [Msg.WindowSizeMsg 80 24, Msg.KeyMsg "x"])
          ["imgcat", "missing.png"]) = some 0 := by
  decide

/-- C16, amended: in every run over at least one reference, when the events
handled so far have left the loop in a model with err set (a load or decode has
failed) and a key is then pressed, whatever the key, the process exits with
status 0; and when the key pressed is "q" or the interrupt key, with or without
a failure before it, the process exits with status 0. -/
theorem quit_exit_status (L : Libs) (W : World) (closed : Option error) (prog a : String)
    (rest : List String) (pre post : List Msg) (key : String) (m' : model)
    (h1 : a ≠ "-h") (h2 : a ≠ "--help")
    (hpre : teaLoop L W pre (initialModel (a :: rest)) = some (m', false))
    (hkey : m'.err ≠ none ∨ key = "q" ∨ key = "ctrl+c") :
    ∃ out, main (teaStart L W closed (pre ++ Msg.KeyMsg key :: post)) (prog :: a :: rest)
        = some out ∧ out.status = 0 := by
  have hU : Update L m' (Msg.KeyMsg key) = some (m', some Cmd.Quit) := by
    rcases hkey with hf | hq | hq
    · cases he : m'.err with
      | none => exact absurd he hf
      | some e => simp [Update, he]
    · cases he : m'.err <;> simp [Update, he, hq]
    · cases he : m'.err <;> simp [Update, he, hq]
  have hloop : teaLoop L W (pre ++ Msg.KeyMsg key :: post) (initialModel (a :: rest))
      = some (m', true) := by
    rw [teaLoop_append L W _ pre _ m' hpre]
    simp [teaLoop, deliver_quit L W m' key hU]
  have hor : ¬ (a = "-h" ∨ a = "--help") := by simp [h1, h2]
  refine ⟨⟨"", 0⟩, ?_, rfl⟩
  simp [main, hor, teaStart, hloop]

theorem quit_exit_status_witness :
    "a.png" ≠ "-h" ∧ "a.png" ≠ "--help" ∧
      teaLoop demoLibs fileWorld [Msg.WindowSizeMsg 80 2] (initialModel ["a.png"])
        = some (⟨0, ["a.png"], "1/2:▀\n3/0:▀\nq to quit | a.png\n", 2, none⟩, false) ∧
      ∃ out, main (teaStart demoLibs fileWorld (some ⟨"EOF"⟩)
          ([Msg.WindowSizeMsg 80 2] ++ Msg.KeyMsg "q" :: [Msg.KeyMsg "j"]))
            ["imgcat", "a.png"] = some out ∧ out.status = 0 :=
  ⟨by decide, by decide, by decide,
    quit_exit_status demoLibs fileWorld (some ⟨"EOF"⟩) "imgcat" "a.png" []
      [Msg.WindowSizeMsg 80 2] [Msg.KeyMsg "j"] "q"
      ⟨0, ["a.png"], "1/2:▀\n3/0:▀\nq to quit | a.png\n", 2, none⟩
      (by decide) (by decide) (by decide) (Or.inr (Or.inl rfl))⟩

/-! ## Repeated navigation -/

theorem model_eta (m : model) (i : Int) (h : i = m.selected) :
    ({ m with selected := i } : model) = m := by
  subst h; rfl

theorem pressKeys_next (L : Libs) (key : String) (hk : key = "j" ∨ key = "down") :
    ∀ (k : Nat) (m : model), m.err = none → validIndex m → sliceLen m.urls →
      pressKeys L key k m
        = some { m with selected := (m.selected + k) % m.urls.length } := by
  intro k
  induction k with
  | zero =>
    intro m _ hsel _
    have h : (m.selected + ((0 : Nat) : Int)) % (m.urls.length : Int) = m.selected := by
      rw [Int.natCast_zero, Int.add_zero]
      exact Int.emod_eq_of_lt hsel.1 hsel.2
    rw [model_eta m _ h]
    rfl
  | succ k ih =>
    intro m herr hsel hlen
    obtain ⟨url, _, hU⟩ := Update_next L m key herr hk hsel hlen
    have hpos : (0 : Int) < m.urls.length := by have := hsel.1; have := hsel.2; omega
    have hv : validIndex { m with selected := (m.selected + 1) % m.urls.length } :=
      ⟨Int.emod_nonneg _ (by omega), Int.emod_lt_of_pos _ hpos⟩
    have h := ih { m with selected := (m.selected + 1) % m.urls.length } herr hv hlen
    simp only [pressKeys, hU]
    rw [h]
    have e : ((m.selected + 1) % (m.urls.length : Int) + (k : Int)) % (m.urls.length : Int)
        = (m.selected + ((k + 1 : Nat) : Int)) % (m.urls.length : Int) := by
      rw [Int.emod_add_emod]
      congr 1
      push_cast
      ring
    simp only [e]

theorem pressKeys_prev (L : Libs) (key : String) (hk : key = "k" ∨ key = "up") :
    ∀ (k : Nat) (m : model), m.err = none → validIndex m → sliceLen m.urls →
      pressKeys L key k m
        = some { m with selected := (m.selected - k) % m.urls.length } := by
  intro k
  induction k with
  | zero =>
    intro m _ hsel _
    have h : (m.selected - ((0 : Nat) : Int)) % (m.urls.length : Int) = m.selected := by
      rw [Int.natCast_zero, Int.sub_zero]
      exact Int.emod_eq_of_lt hsel.1 hsel.2
    rw [model_eta m _ h]
    rfl
  | succ k ih =>
    intro m herr hsel hlen
    obtain ⟨url, _, hU⟩ := Update_prev L m key herr hk hsel hlen
    have hpos : (0 : Int) < m.urls.length := by have := hsel.1; have := hsel.2; omega
    have hv : validIndex
        { m with selected := (m.selected - 1 + m.urls.length) % m.urls.length } :=
      ⟨Int.emod_nonneg _ (by omega), Int.emod_lt_of_pos _ hpos⟩
    have h := ih { m with selected := (m.selected - 1 + m.urls.length) % m.urls.length }
      herr hv hlen
    simp only [pressKeys, hU]
    rw [h]
    have e : ((m.selected - 1 + m.urls.length) % (m.urls.length : Int) - (k : Int))
          % (m.urls.length : Int)
        = (m.selected - ((k + 1 : Nat) : Int)) % (m.urls.length : Int) := by
      rw [Int.sub_eq_add_neg, Int.emod_add_emod]
      have e2 : m.selected - 1 + (m.urls.length : Int) + -(k : Int)
          = (m.selected - ((k + 1 : Nat) : Int)) + (m.urls.length : Int) := by
        push_cast; ring
      rw [e2, Int.add_emod_self]
    simp only [e]

theorem add_sub_emod (a k n : Int) : (a + n - k % n) % n = (a - k) % n := by
  have h : a + n - k % n = (a - k) + n * (1 + k / n) := by
    have := Int.emod_add_ediv k n
    linarith
  rw [h, Int.add_mul_emod_self_left]

/-- C17: in a model without error whose selected index i points into its list
of n references, a "next" key pressed k times selects (i + k) mod n and a
"previous" key pressed k times selects (i + n - (k mod n)) mod n; so n presses
of either bring the index back to i, and from index 0 every index j of the
list is reached by j presses of "next". -/
theorem repeated_navigation (L : Libs) (m : model) (k : Nat) (herr : m.err = none)
    (hsel : validIndex m) (hlen : sliceLen m.urls) :
    (∀ key, key = "j" ∨ key = "down" →
      (∃ m', pressKeys L key k m = some m' ∧
        m'.selected = (m.selected + k) % m.urls.length) ∧
      (∃ m', pressKeys L key m.urls.length m = some m' ∧ m'.selected = m.selected) ∧
      (m.selected = 0 → ∀ j : Nat, j < m.urls.length →
        ∃ m', pressKeys L key j m = some m' ∧ m'.selected = j)) ∧
    (∀ key, key = "k" ∨ key = "up" →
      (∃ m', pressKeys L key k m = some m' ∧
        m'.selected = (m.selected + m.urls.length - (k : Int) % m.urls.length)
          % m.urls.length) ∧
      (∃ m', pressKeys L key m.urls.length m = some m' ∧ m'.selected = m.selected)) := by
  constructor
  · intro key hk
    refine ⟨⟨_, pressKeys_next L key hk k m herr hsel hlen, rfl⟩,
      ⟨_, pressKeys_next L key hk _ m herr hsel hlen, ?_⟩, ?_⟩
    · show (m.selected + (m.urls.length : Int)) % (m.urls.length : Int) = m.selected
      rw [Int.add_emod_self]
      exact Int.emod_eq_of_lt hsel.1 hsel.2
    · intro h0 j hj
      refine ⟨_, pressKeys_next L key hk j m herr hsel hlen, ?_⟩
      show (m.selected + (j : Int)) % (m.urls.length : Int) = j
      rw [h0, Int.zero_add]
      exact Int.emod_eq_of_lt (by omega) (by omega)
  · intro key hk
    refine ⟨⟨_, pressKeys_prev L key hk k m herr hsel hlen, ?_⟩,
      ⟨_, pressKeys_prev L key hk _ m herr hsel hlen, ?_⟩⟩
    · show (m.selected - (k : Int)) % (m.urls.length : Int) = _
      rw [add_sub_emod]
    · show (m.selected - (m.urls.length : Int)) % (m.urls.length : Int) = m.selected
      rw [Int.sub_emod, Int.emod_self, Int.sub_zero, Int.emod_emod_of_dvd _ (dvd_refl _)]
      exact Int.emod_eq_of_lt hsel.1 hsel.2

theorem repeated_navigation_witness :
    demoModel.err = none ∧ validIndex demoModel ∧ sliceLen demoModel.urls ∧
      ∃ m', pressKeys demoLibs "up" 3 demoModel = some m' ∧
        m'.selected = (demoModel.selected + demoModel.urls.length
          - ((3 : Nat) : Int) % demoModel.urls.length) % demoModel.urls.length :=
  ⟨rfl, by decide, by decide,
    ((repeated_navigation demoLibs demoModel 3 rfl (by decide) (by decide)).2 "up"
      (Or.inr rfl)).1⟩

/-- C18: in a model without error whose selected index is in range, a "next"
key followed by a "previous" key returns the model it started from, equal in
every field, and so does "previous" followed by "next". -/
theorem next_previous_inverse (L : Libs) (m : model) (herr : m.err = none)
    (hsel : validIndex m) (hlen : sliceLen m.urls) (nextKey prevKey : String)
    (hn : nextKey = "j" ∨ nextKey = "down") (hp : prevKey = "k" ∨ prevKey = "up") :
    (∃ m1 c1 c2, Update L m (Msg.KeyMsg nextKey) = some (m1, c1) ∧
      Update L m1 (Msg.KeyMsg prevKey) = some (m, c2)) ∧
    (∃ m1 c1 c2, Update L m (Msg.KeyMsg prevKey) = some (m1, c1) ∧
      Update L m1 (Msg.KeyMsg nextKey) = some (m, c2)) := by
  have h0 := hsel.1
  have h1 := hsel.2
  have hpos : (0 : Int) < m.urls.length := by omega
  constructor
  · obtain ⟨u1, _, hU1⟩ := Update_next L m nextKey herr hn hsel hlen
    have hv : validIndex { m with selected := (m.selected + 1) % m.urls.length } :=
      ⟨Int.emod_nonneg _ (by omega), Int.emod_lt_of_pos _ hpos⟩
    obtain ⟨u2, _, hU2⟩ := Update_prev L
      { m with selected := (m.selected + 1) % m.urls.length } prevKey herr hp hv hlen
    refine ⟨_, _, some (load u2), hU1, ?_⟩
    rw [hU2]
    have e : ((m.selected + 1) % (m.urls.length : Int) - 1 + (m.urls.length : Int))
        % (m.urls.length : Int) = m.selected := by
      rw [Int.add_emod_self, Int.sub_eq_add_neg, Int.emod_add_emod]
      have e2 : m.selected + 1 + -1 = m.selected := by ring
      rw [e2]
      exact Int.emod_eq_of_lt h0 h1
    have hm := model_eta m _ e
    simp only at hm ⊢
    rw [hm]
  · obtain ⟨u1, _, hU1⟩ := Update_prev L m prevKey herr hp hsel hlen
    have hv : validIndex
        { m with selected := (m.selected - 1 + m.urls.length) % m.urls.length } :=
      ⟨Int.emod_nonneg _ (by omega), Int.emod_lt_of_pos _ hpos⟩
    obtain ⟨u2, _, hU2⟩ := Update_next L
      { m with selected := (m.selected - 1 + m.urls.length) % m.urls.length } nextKey herr hn
      hv hlen
    refine ⟨_, _, some (load u2), hU1, ?_⟩
    rw [hU2]
    have e : ((m.selected - 1 + m.urls.length) % (m.urls.length : Int) + 1)
        % (m.urls.length : Int) = m.selected := by
      rw [Int.emod_add_emod]
      have e2 : m.selected - 1 + (m.urls.length : Int) + 1
          = m.selected + (m.urls.length : Int) := by ring
      rw [e2, Int.add_emod_self]
      exact Int.emod_eq_of_lt h0 h1
    have hm := model_eta m _ e
    simp only at hm ⊢
    rw [hm]

theorem next_previous_inverse_witness :
    shownModel.err = none ∧ validIndex shownModel ∧ sliceLen shownModel.urls ∧
      ∃ m1 c1 c2, Update demoLibs shownModel (Msg.KeyMsg "up") = some (m1, c1) ∧
        Update demoLibs m1 (Msg.KeyMsg "j") = some (shownModel, c2) :=
  ⟨rfl, by decide, by decide,
    (next_previous_inverse demoLibs shownModel rfl (by decide) (by decide) "j" "up"
      (Or.inl rfl) (Or.inr rfl)).2⟩

/-! ## Failure is absorbing, other keys are ignored -/

/-- One step of `Update` from a failed model: err stays set. -/
theorem Update_keeps_err (L : Libs) (m : model) (msg : Msg) (herr : m.err ≠ none)
    (m' : model) (cmd : Option Cmd) (hU : Update L m msg = some (m', cmd)) :
    m'.err ≠ none := by
  cases he : m.err with
  | none => exact absurd he herr
  | some e0 =>
    cases msg with
    | WindowSizeMsg W H =>
      cases hi : index m.urls m.selected with
      | none => simp [Update, he, hi] at hU
      | some url =>
        simp [Update, he, hi] at hU
        obtain ⟨rfl, _⟩ := hU
        simp
    | KeyMsg key =>
      simp [Update, he] at hU
      obtain ⟨rfl, _⟩ := hU
      exact herr
    | errMsg e =>
      simp [Update, he] at hU
      obtain ⟨rfl, _⟩ := hU
      simp
    | loadMsg resp file =>
      cases hi : index m.urls m.selected with
      | none => simp [Update, he, hi] at hU
      | some url =>
        cases hr : readerToImage L m.height url (loadReader resp file) with
        | none => simp [Update, he, hi, hr] at hU
        | some r =>
          cases r with
          | error err =>
            simp [Update, he, hi, hr] at hU
            obtain ⟨rfl, _⟩ := hU
            exact herr
          | ok img =>
            simp [Update, he, hi, hr] at hU
            obtain ⟨rfl, _⟩ := hU
            simp
    | quitMsg =>
      simp [Update, he] at hU
      obtain ⟨rfl, _⟩ := hU
      exact herr
    | other =>
      simp [Update, he] at hU
      obtain ⟨rfl, _⟩ := hU
      exact herr

/-- C19: from a model whose err is set, the model `Update` returns on any
message still has err set (and `Update` does return when the index is in
range); hence in every model reachable from it `View` returns the error text,
never a frame or the loading placeholder, and every key message returns the
quit command and the model itself, its selected index unchanged. -/
theorem failure_is_absorbing (L : Libs) (m : model) (herr : m.err ≠ none) :
    (∀ msg m' cmd, Update L m msg = some (m', cmd) → m'.err ≠ none) ∧
    (validIndex m → sliceLen m.urls → resizeInRange L →
      ∀ msg, ∃ m' cmd, Update L m msg = some (m', cmd) ∧ m'.err ≠ none) ∧
    (∀ m', Reachable L m m' →
      m'.err ≠ none ∧
      (∃ e : error, View m'
        = some ("couldn't load image(s): " ++ e.Error ++ "\n\npress any key to exit")) ∧
      ∀ key, Update L m' (Msg.KeyMsg key) = some (m', some Cmd.Quit)) := by
  refine ⟨fun msg m' cmd hU => Update_keeps_err L m msg herr m' cmd hU, ?_, ?_⟩
  · intro hsel hlen hR msg
    obtain ⟨⟨m', cmd⟩, hU⟩ := Update_returns L hR m msg hsel hlen
    exact ⟨m', cmd, hU, Update_keeps_err L m msg herr m' cmd hU⟩
  · intro m' hreach
    have hset : m'.err ≠ none := by
      induction hreach with
      | start => exact herr
      | step m1 m2 msg cmd _ hU ih => exact Update_keeps_err L m1 msg ih m2 cmd hU
    refine ⟨hset, ?_, ?_⟩
    · cases he : m'.err with
      | none => exact absurd he hset
      | some e => exact ⟨e, by simp [View, he]⟩
    · intro key
      cases he : m'.err with
      | none => exact absurd he hset
      | some e => simp [Update, he]

theorem failure_is_absorbing_witness :
    failedModel.err ≠ none ∧
      (⟨1, ["a.png", "b.jpg"], "frame_a", 30, some ⟨"image: unknown format"⟩⟩ : model).err
        ≠ none :=
  ⟨by decide,
    (failure_is_absorbing demoLibs failedModel (by decide)).1 (Msg.WindowSizeMsg 80 30) _
      (some (Cmd.osOpen "b.jpg")) (by decide)⟩

/-- C20: in a model without error, a key message whose key is none of
"ctrl+c", "q", "j", "down", "k", "up" makes `Update` return the model unchanged
in every field and no command, neither a load nor quit. -/
theorem other_keys_ignored (L : Libs) (m : model) (key : String) (herr : m.err = none)
    (h1 : key ≠ "ctrl+c") (h2 : key ≠ "q") (h3 : key ≠ "j") (h4 : key ≠ "down")
    (h5 : key ≠ "k") (h6 : key ≠ "up") :
    Update L m (Msg.KeyMsg key) = some (m, none) := by
  simp [Update, herr, h1, h2, h3, h4, h5, h6]

theorem other_keys_ignored_witness :
    shownModel.err = none ∧ Update demoLibs shownModel (Msg.KeyMsg "x") = some (shownModel, none) :=
  ⟨rfl,
    other_keys_ignored demoLibs shownModel "x" rfl (by decide) (by decide) (by decide)
      (by decide) (by decide) (by decide)⟩

end Imgcat
